import Mathlib

/-!
Verification of the Chimera facilitator backend: a shallow embedding of the
policy-gated execution core (signature verification, policy validation,
nonce replay tracking, dispatch), the self-correcting audit loop, and the
report-scoring / code-extraction heuristics, together with theorems settling
the behavioural claims about them.
-/

namespace Chimera

/-- The backtick character, used by the markdown fence scanner. -/
def tickChar : Char := Char.ofNat 96

/-- The closing-brace character. -/
def closeBrace : Char := Char.ofNat 125

/-- JavaScript `\s` whitespace class (ASCII part, as produced by the model output). -/
def jsWS (c : Char) : Bool :=
  c = ' ' || c = '\t' || c = '\n' || c = '\r' || c = Char.ofNat 11 || c = Char.ofNat 12

/-- `String.prototype.trim()`: strip whitespace from both ends of a char list. -/
def trimL (l : List Char) : List Char :=
  ((l.dropWhile jsWS).reverse.dropWhile jsWS).reverse

/-- `trim()` on strings. -/
def trimS (s : String) : String := String.mk (trimL s.toList)

/-- Lowercase a char list (models JS case-insensitive regex matching on ASCII). -/
def lowerL (l : List Char) : List Char := l.map Char.toLower

/-- `String.prototype.toLowerCase()`. -/
def lowerStr (s : String) : String := String.mk (lowerL s.toList)

/-- First index at or after the scan start where `needle` occurs in the haystack
(models `String.prototype.indexOf` / regex literal search). -/
def findSubAux (needle : List Char) : List Char → Nat → Option Nat
  | [], i => if needle.isEmpty then some i else none
  | c :: cs, i =>
    if needle.isPrefixOf (c :: cs) then some i else findSubAux needle cs (i + 1)

/-- First occurrence index of `needle` in `hay`. -/
def findSub (needle hay : List Char) : Option Nat := findSubAux needle hay 0

/-- `String.prototype.includes(needle)`. -/
def containsSub (hay needle : String) : Bool := (findSub needle.toList hay.toList).isSome

/-- Index of the last occurrence of a character (models `String.prototype.lastIndexOf`,
returning `none` for JS `-1`). -/
def lastIdxOf (c : Char) : List Char → Option Nat
  | [] => none
  | a :: as =>
    match lastIdxOf c as with
    | some j => some (j + 1)
    | none => if a = c then some 0 else none

/-- Count non-overlapping occurrences of `needle` scanning left to right
(models a global regex literal match count). -/
def countOccur (needle : List Char) : List Char → Nat
  | [] => 0
  | c :: cs =>
    if needle.isPrefixOf (c :: cs) then
      1 + countOccur needle (cs.drop (needle.length - 1))
    else
      countOccur needle cs
termination_by l => l.length
decreasing_by
  · simp only [List.length_drop, List.length_cons]
    omega
  · simp only [List.length_cons]
    omega

/-- Case-insensitive non-overlapping occurrence count, as JS `(s.match(/kw/gi) || []).length`. -/
def countCI (kw : String) (s : String) : Nat :=
  countOccur (lowerL kw.toList) (lowerL s.toList)

/-- The separator class `[:\s]` of the score / issue regexes. -/
def scoreSep (c : Char) : Bool := c = ':' || jsWS c

/-- Numeric value of a decimal digit character. -/
def digitVal (c : Char) : Nat := c.toNat - 48

/-- `parseInt` on a run of decimal digit characters. -/
def parseDigits (l : List Char) : Nat := l.foldl (fun a c => a * 10 + digitVal c) 0

/-- Try to match `/score[:\s]+(\d+)/i` anchored at the head of the list. -/
def scanScoreAt (l : List Char) : Option Nat :=
  if lowerL (l.take 5) = "score".toList then
    let r := l.drop 5
    let seps := r.takeWhile scoreSep
    if 1 ≤ seps.length then
      let ds := (r.drop seps.length).takeWhile Char.isDigit
      if 1 ≤ ds.length then some (parseDigits ds) else none
    else none
  else none

/-- Scan the whole report for the first `/score[:\s]+(\d+)/i` match. -/
def scanScore : List Char → Option Nat
  | [] => none
  | c :: cs =>
    match scanScoreAt (c :: cs) with
    | some n => some n
    | none => scanScore cs

/-- `ChainGPTService.extractAuditScore`: regex-extract an explicit score, else
deduct 30/15/5 points per `critical` / `high severity` / `medium severity`
keyword occurrence from 100 and clamp the result to [0, 100]. -/
def extractAuditScore (report : String) : Nat :=
  match scanScore report.toList with
  | some n => n
  | none =>
    let critical := countCI "critical" report
    let high := countCI "high severity" report
    let medium := countCI "medium severity" report
    let score : Int := 100 - (critical : Int) * 30 - (high : Int) * 15 - (medium : Int) * 5
    (max 0 (min 100 score)).toNat

/-- The audit-score derivation as worded by the spec: the integer regex-extracted
from an explicit score token when present, otherwise
`100 − 30×criticalCount − 15×highCount − 5×mediumCount` clamped to [0, 100]. -/
def auditScoreSpec (report : String) : Nat :=
  match scanScore report.toList with
  | some n => n
  | none =>
    let penalty : Int :=
      30 * (countCI "critical" report : Int) + 15 * (countCI "high severity" report : Int) +
        5 * (countCI "medium severity" report : Int)
    (max 0 (min 100 (100 - penalty))).toNat

/-- C10. Audit-score derivation: for every audit report string, the derived score
equals the integer regex-extracted from an explicit "score: N" token when one is
present, and otherwise equals 100 − 30×criticalCount − 15×highCount − 5×mediumCount
(counting keyword occurrences in the report), with the result clamped to [0, 100]. -/
theorem C10_audit_score_derivation (report : String) :
    extractAuditScore report = auditScoreSpec report := by
  unfold extractAuditScore auditScoreSpec
  cases scanScore report.toList with
  | some n => rfl
  | none =>
    simp only []
    congr 1
    omega

/-! ### Code extraction (`AuditLoopService.extractSolidityCode`) -/

/-- The markdown fence token. -/
def ticks : List Char := [tickChar, tickChar, tickChar]

/-- The optional language tag of the fence-open regex. -/
def solidityChars : List Char := "solidity".toList

/-- Match `\s*\n` with greedy backtracking at the head of `r`: the content starts
right after the last newline inside the maximal whitespace run. -/
def wsNlSplit (r : List Char) : Option (List Char) :=
  match lastIdxOf '\n' (r.takeWhile jsWS) with
  | some k => some (r.drop (k + 1))
  | none => none

/-- Continuation of the fence-open pattern: match `\s*\n` then capture lazily up
to the closing fence. -/
def fenceCont (r : List Char) : Option (List Char) :=
  match wsNlSplit r with
  | none => none
  | some content =>
    match findSub ticks content with
    | some j => some (content.take j)
    | none => none

/-- After an opening fence was consumed: match `(?:solidity)?\s*\n([\s\S]*?)` up to
the closing fence, returning the lazy capture (greedy `(?:solidity)?` with
backtracking). -/
def fenceAfterTicks (rest : List Char) : Option (List Char) :=
  if solidityChars.isPrefixOf rest then
    match fenceCont (rest.drop 8) with
    | some cap => some cap
    | none => fenceCont rest
  else fenceCont rest

/-- Scan for the first match of the fenced-block regex
(as `response.match` with an unanchored pattern: start positions advance one by one). -/
def scanFence : List Char → Option (List Char)
  | [] => none
  | c :: cs =>
    match (if ticks.isPrefixOf (c :: cs) then fenceAfterTicks (cs.drop 2) else none) with
    | some cap => some cap
    | none => scanFence cs

/-- The SPDX license-header anchor. -/
def spdxLit : List Char := "SPDX-License-Identifier".toList

/-- Does `/\/\/\s*SPDX-License-Identifier/` match at the head of the list? -/
def spdxAt (l : List Char) : Bool :=
  "//".toList.isPrefixOf l && spdxLit.isPrefixOf ((l.drop 2).dropWhile jsWS)

/-- First match of the SPDX anchor; the capture runs to the end of the response. -/
def scanSpdx : List Char → Option (List Char)
  | [] => none
  | c :: cs => if spdxAt (c :: cs) then some (c :: cs) else scanSpdx cs

/-- The `pragma` keyword. -/
def pragmaLit : List Char := "pragma".toList

/-- Does `/pragma\s+solidity/` match at the head of the list? -/
def pragmaAt (l : List Char) : Bool :=
  pragmaLit.isPrefixOf l &&
    (let r := l.drop 6
     let w := r.takeWhile jsWS
     decide (1 ≤ w.length) && solidityChars.isPrefixOf (r.drop w.length))

/-- First match of the `pragma solidity` anchor; the capture runs to the end. -/
def scanPragma : List Char → Option (List Char)
  | [] => none
  | c :: cs => if pragmaAt (c :: cs) then some (c :: cs) else scanPragma cs

/-- Trim a capture to its last closing brace (the source requires `lastBrace > 0`,
so a brace at index 0 — or no brace — fails this step). -/
def braceTrim (cap : List Char) : Option (List Char) :=
  match lastIdxOf closeBrace cap with
  | some j => if 0 < j then some (trimL (cap.take (j + 1))) else none
  | none => none

/-- Final fallback of the extraction heuristic: a response that itself starts with
`//` or `pragma` is treated as raw code and trimmed to its last closing brace. -/
def rawBranch (cs : List Char) : Option String :=
  let t := trimL cs
  if "//".toList.isPrefixOf t || pragmaLit.isPrefixOf t then
    match braceTrim cs with
    | some code => some (String.mk code)
    | none => none
  else none

/-- The `pragma solidity` anchor branch, falling through to the raw branch. -/
def pragmaBranch (cs : List Char) : Option String :=
  match scanPragma cs with
  | some cap =>
    match braceTrim cap with
    | some code => some (String.mk code)
    | none => rawBranch cs
  | none => rawBranch cs

/-- The SPDX anchor branch, falling through to the pragma branch. -/
def spdxBranch (cs : List Char) : Option String :=
  match scanSpdx cs with
  | some cap =>
    match braceTrim cap with
    | some code => some (String.mk code)
    | none => pragmaBranch cs
  | none => pragmaBranch cs

/-- `AuditLoopService.extractSolidityCode`: layered heuristic extracting Solidity
source from a raw model response. Prefers a fenced block containing a recognizable
contract marker, then the SPDX / pragma anchors trimmed to the last closing brace,
then raw responses starting with `//` or `pragma`; returns `none` ("null") when no
heuristic matches. -/
def extractSolidityCode (response : String) : Option String :=
  if response = "" then none
  else
    let cs := response.toList
    match scanFence cs with
    | some cap =>
      let code := String.mk (trimL cap)
      if containsSub code "pragma solidity" || containsSub code "contract " then some code
      else spdxBranch cs
    | none => spdxBranch cs

/-! ### Issue extraction and feedback prompt (`AuditLoopService`) -/

/-- Find the start of the issue capture after a keyword: the largest split of
`[:\s]+` (searching indices `m, m-1, …, 1`) whose following character is not a
newline; models the regex engine's greedy backtracking. -/
def downSearch (r : List Char) : Nat → Option Nat
  | 0 => none
  | s + 1 =>
    if h : s + 1 < r.length then
      if r.get ⟨s + 1, h⟩ ≠ '\n' then some (s + 1) else downSearch r s
    else downSearch r s

/-- Match `[:\s]+([^\n]+)` at the head of `r`, returning the capture and the
remainder of the haystack after the whole match. -/
def issueSplit (r : List Char) : Option (List Char × List Char) :=
  let m := (r.takeWhile scoreSep).length
  if m = 0 then none
  else
    match downSearch r m with
    | none => none
    | some s =>
      let cap := (r.drop s).takeWhile (fun c => c ≠ '\n')
      some (cap, r.drop (s + cap.length))

/-- Scan for all non-overlapping matches of `/kw[:\s]+([^\n]+)/gi`, collecting the
trimmed captures (the fuel argument is the initial haystack length). -/
def scanIssuesAux (kw : List Char) : Nat → List Char → List (List Char)
  | 0, _ => []
  | _, [] => []
  | fuel + 1, c :: cs =>
    if lowerL ((c :: cs).take kw.length) = kw then
      match issueSplit ((c :: cs).drop kw.length) with
      | some (cap, rest) => trimL cap :: scanIssuesAux kw fuel rest
      | none => scanIssuesAux kw fuel cs
    else scanIssuesAux kw fuel cs

/-- All captures of one issue pattern over the report. -/
def scanIssues (kw : String) (s : String) : List String :=
  (scanIssuesAux (lowerL kw.toList) s.toList.length s.toList).map String.mk

/-- `AuditLoopService.extractIssues`: pattern-match severity / vulnerability /
issue / warning lines out of the audit report, falling back to the report's first
sentences, limited to the top 5. -/
def extractIssues (report : String) : List String :=
  let patterns := ["critical", "high severity", "medium severity", "vulnerability", "issue", "warning"]
  let issues := patterns.foldl (fun acc kw => acc ++ scanIssues kw report) []
  let issues :=
    if issues.length = 0 then
      ((report.split (fun c => c = '.')).take 3).filter (fun s => 10 < (trimS s).length)
    else issues
  issues.take 5

/-- `AuditLoopService.createFeedbackPrompt`: augment the original prompt with the
numbered issue list for the next generation attempt. -/
def createFeedbackPrompt (originalPrompt previousCode : String) (issues : List String) : String :=
  let issuesList :=
    String.intercalate "\n" (issues.enum.map (fun p => toString (p.1 + 1) ++ ". " ++ p.2))
  originalPrompt ++
    "\n\nIMPORTANT: The previous generation had the following security issues that MUST be fixed:\n" ++
    issuesList ++
    "\n\nPlease generate a corrected version that addresses all these issues while maintaining the original requirements.\nFocus on security best practices and avoid common vulnerabilities."

/-! ### Self-correcting audit loop (`AuditLoopService.generateWithAudit`) -/

/-- Progress events yielded by the generator. -/
inductive AuditEvent where
  | attempt (n maxRetries : Nat)
  | status (message : String)
  | codeChunk (data : String)
  | codeComplete (code : String)
  | auditComplete (score : Nat) (report : String)
  | success (code : String) (score : Nat) (report : String)
  | retry (n score : Nat)
  | failed (code : String) (score : Nat) (report : String)
  | error (n : Nat) (message : String)
  deriving DecidableEq, Repr

/-- Behaviour of one `generateContractStream` call: the chunks it yields, then an
optional error thrown by the stream. -/
structure GenOut where
  chunks : List String
  err : Option String
  deriving Repr

/-- Outcome classification of one try-block iteration of the loop. -/
inductive AttemptRes where
  | thrown (pre : List AuditEvent) (msg : String)
  | halt (evs : List AuditEvent)
  | again (evs : List AuditEvent) (newPrompt : String)

/-- The try-block body of one loop iteration: generate, extract, audit, then
classify as success / retry / failed, or a thrown error (caught by the loop). -/
def attemptBody (gen : String → GenOut) (audit : String → Except String String)
    (threshold maxRetries attempt : Nat) (originalPrompt currentPrompt : String) : AttemptRes :=
  let g := gen currentPrompt
  let chunkEvs := g.chunks.map AuditEvent.codeChunk
  match g.err with
  | some e => .thrown chunkEvs e
  | none =>
    let rawOutput := String.join g.chunks
    match extractSolidityCode rawOutput with
    | none => .thrown chunkEvs "Could not extract Solidity code from response"
    | some generatedCode =>
      let evs1 := chunkEvs ++
        [AuditEvent.codeComplete generatedCode, AuditEvent.status "Auditing contract..."]
      match audit generatedCode with
      | .error e => .thrown evs1 e
      | .ok report =>
        let score := extractAuditScore report
        let evs2 := evs1 ++ [AuditEvent.auditComplete score report]
        if threshold ≤ score then
          .halt (evs2 ++ [AuditEvent.success generatedCode score report])
        else if attempt < maxRetries then
          .again (evs2 ++ [AuditEvent.retry attempt score])
            (createFeedbackPrompt originalPrompt generatedCode (extractIssues report))
        else
          .halt (evs2 ++ [AuditEvent.failed generatedCode score report])

/-- The `for (attempt = 1; attempt <= maxRetries; attempt++)` loop, structurally
recursive on the remaining iteration count; returns the yielded event sequence
and the error re-raised to the caller, if any. -/
def auditLoopGo (gen : String → GenOut) (audit : String → Except String String)
    (threshold : Nat) (originalPrompt : String) (maxRetries : Nat) :
    Nat → Nat → String → List AuditEvent × Option String
  | 0, _, _ => ([], none)
  | remaining + 1, attempt, currentPrompt =>
    let head := [AuditEvent.attempt attempt maxRetries, AuditEvent.status "Generating contract..."]
    match attemptBody gen audit threshold maxRetries attempt originalPrompt currentPrompt with
    | .thrown pre msg =>
      let evs := head ++ pre ++ [AuditEvent.error attempt msg]
      if maxRetries ≤ attempt then (evs, some msg)
      else
        let rest := auditLoopGo gen audit threshold originalPrompt maxRetries remaining
          (attempt + 1) currentPrompt
        (evs ++ rest.1, rest.2)
    | .halt evs => (head ++ evs, none)
    | .again evs newPrompt =>
      let rest := auditLoopGo gen audit threshold originalPrompt maxRetries remaining
        (attempt + 1) newPrompt
      (head ++ evs ++ rest.1, rest.2)

/-- `AuditLoopService.generateWithAudit`: run up to `maxRetries` attempts from the
given prompt, feeding audit issues back into the prompt between attempts. -/
def generateWithAudit (gen : String → GenOut) (audit : String → Except String String)
    (threshold : Nat) (prompt : String) (maxRetries : Nat) : List AuditEvent × Option String :=
  auditLoopGo gen audit threshold prompt maxRetries maxRetries 1 prompt

/-- Is the event a terminal `success` / `failed` event? -/
def isTerminalEvent : AuditEvent → Bool
  | .success _ _ _ => true
  | .failed _ _ _ => true
  | _ => false

/-- Is the event an `attempt` progress event? -/
def isAttemptEvent : AuditEvent → Bool
  | .attempt _ _ => true
  | _ => false

/-- Is the event an `error` event? -/
def isErrorEvent : AuditEvent → Bool
  | .error _ _ => true
  | _ => false

/-! ### Facilitator data model (`FacilitatorService`)

JS value conventions used by the embedding: optional / possibly-absent object
fields are `Option`; JS truthiness of a number is `≠ 0`, of a string is `≠ ""`,
of an optional field `isSome` of a truthy value. Ether amounts handled through
`parseFloat` / `formatEther` are rationals. -/

/-- The type-specific `intent.data` payload (only the fields the backend reads). -/
structure IntentData where
  contract : Option String := none
  auditScore : Option Nat := none
  bytecode : Option String := none
  abi : Option String := none
  constructorArgs : List String := []
  token : Option String := none
  recipient : Option String := none
  amount : Option String := none
  method : Option String := none
  args : List String := []
  value : Option String := none
  router : Option String := none
  functionName : Option String := none
  deriving DecidableEq, Repr

/-- A user intent. -/
structure Intent where
  type : String
  nonce : Nat
  deadline : Nat
  dataHash : Option String := none
  data : IntentData := {}
  deriving DecidableEq, Repr

/-- One per-user ledger entry pushed by `recordTransaction`. -/
structure TxRecord where
  timestamp : Nat
  type : String
  txHash : String
  gasSpent : Option ℚ
  deriving DecidableEq, Repr

/-- The module-level mutable state: `usedNonces` and `userTracking`
(an association list keyed by lowercased address). -/
structure FacState where
  usedNonces : List String
  tracking : List (String × List TxRecord)
  deriving DecidableEq, Repr

/-- The policy configuration record. -/
structure Policy where
  maxSpendPerTx : ℚ
  maxSpendPerDay : ℚ
  maxSpendPerHour : ℚ
  maxTxPerMinute : Nat
  maxTxPerHour : Nat
  maxTxPerDay : Nat
  allowedIntentTypes : List String
  allowedContracts : List String
  deniedContracts : List String
  minAuditScore : Nat
  requireAudit : Bool
  deriving DecidableEq, Repr

/-- The `POLICY` constant of `facilitator.js`. -/
def POLICY : Policy where
  maxSpendPerTx := 1 / 2
  maxSpendPerDay := 5
  maxSpendPerHour := 1
  maxTxPerMinute := 5
  maxTxPerHour := 30
  maxTxPerDay := 100
  allowedIntentTypes := ["deploy_contract", "transfer", "call_contract", "swap"]
  allowedContracts := []
  deniedContracts := []
  minAuditScore := 80
  requireAudit := true

/-- JS truthiness of an optional string value. -/
def optStrTruthy : Option String → Bool
  | none => false
  | some s => s ≠ ""

/-- `getUserTracking(address).transactions` read without the lazy-create mutation
(an absent entry reads as the empty history). -/
def lookupTracking (st : FacState) (addr : String) : List TxRecord :=
  match st.tracking.lookup (lowerStr addr) with
  | some l => l
  | none => []

/-- The transaction list consulted by the rate / spend rules for a claimed user. -/
def userTxs (st : FacState) (userAddress : Option String) : List TxRecord :=
  lookupTracking st (userAddress.getD "")

/-- `parseFloat(t.gasSpent || '0')`. -/
def gasOf (t : TxRecord) : ℚ := t.gasSpent.getD 0

/-- `Date.now() - t.timestamp < windowMs` (signed JS arithmetic). -/
def inWindow (nowMs windowMs : Nat) (t : TxRecord) : Bool :=
  decide ((nowMs : Int) - (t.timestamp : Int) < (windowMs : Int))

/-! Violation message strings (numeric rendering of the policy caps is abstracted
by `toString`; only the identity of each message matters to the claims). -/

/-- Deadline violation message. -/
def msgDeadline : String := "Intent deadline expired"

/-- Nonce replay violation message. -/
def msgNonce : String := "Nonce already used (replay attack prevented)"

/-- Disallowed intent type violation message. -/
def msgType (t : String) : String := "Intent type \"" ++ t ++ "\" is not allowed"

/-- Per-minute rate violation message. -/
def msgRateMinute (n : Nat) : String :=
  "Rate limit exceeded: max " ++ toString n ++ " tx/minute"

/-- Per-hour rate violation message. -/
def msgRateHour (n : Nat) : String :=
  "Rate limit exceeded: max " ++ toString n ++ " tx/hour"

/-- Per-day rate violation message. -/
def msgRateDay (n : Nat) : String :=
  "Rate limit exceeded: max " ++ toString n ++ " tx/day"

/-- Hourly spend violation message. -/
def msgSpendHour (q : ℚ) : String :=
  "Spend limit exceeded: max " ++ toString q ++ " BNB/hour"

/-- Daily spend violation message. -/
def msgSpendDay (q : ℚ) : String :=
  "Spend limit exceeded: max " ++ toString q ++ " BNB/day"

/-- Blacklisted contract violation message. -/
def msgDenied : String := "Contract is blacklisted"

/-- Allow-list violation message. -/
def msgAllowlist : String := "Contract is not in allowlist"

/-- Audit-gate violation message. -/
def msgAudit (s m : Nat) : String :=
  "Audit score " ++ toString s ++ " is below minimum " ++ toString m

/-- `FacilitatorService.validatePolicy`: evaluate every policy rule in source
order, pushing each failed rule's message onto the violations list. -/
def validatePolicy (p : Policy) (intent : Intent) (userAddress : Option String)
    (st : FacState) (nowMs : Nat) : List String :=
  let now := nowMs / 1000
  let v0 : List String := []
  let v1 := if intent.deadline ≠ 0 ∧ intent.deadline < now then v0 ++ [msgDeadline] else v0
  let v2 :=
    if intent.nonce ≠ 0 ∧ toString intent.nonce ∈ st.usedNonces then v1 ++ [msgNonce] else v1
  let v3 := if intent.type ∉ p.allowedIntentTypes then v2 ++ [msgType intent.type] else v2
  let v8 :=
    if optStrTruthy userAddress then
      let txs := userTxs st userAddress
      let v4 :=
        if p.maxTxPerMinute ≤ (txs.filter (inWindow nowMs 60000)).length then
          v3 ++ [msgRateMinute p.maxTxPerMinute]
        else v3
      let v5 :=
        if p.maxTxPerHour ≤ (txs.filter (inWindow nowMs 3600000)).length then
          v4 ++ [msgRateHour p.maxTxPerHour]
        else v4
      let v6 :=
        if p.maxTxPerDay ≤ (txs.filter (inWindow nowMs 86400000)).length then
          v5 ++ [msgRateDay p.maxTxPerDay]
        else v5
      let v7 :=
        if p.maxSpendPerHour ≤
            (txs.filter (inWindow nowMs 3600000)).foldl (fun s t => s + gasOf t) 0 then
          v6 ++ [msgSpendHour p.maxSpendPerHour]
        else v6
      if p.maxSpendPerDay ≤
          (txs.filter (inWindow nowMs 86400000)).foldl (fun s t => s + gasOf t) 0 then
        v7 ++ [msgSpendDay p.maxSpendPerDay]
      else v7
    else v3
  let v10 :=
    if intent.type = "call_contract" ∧ optStrTruthy intent.data.contract then
      let c := lowerStr (intent.data.contract.getD "")
      let v9 := if c ∈ p.deniedContracts.map lowerStr then v8 ++ [msgDenied] else v8
      if 0 < p.allowedContracts.length ∧ c ∉ p.allowedContracts.map lowerStr then
        v9 ++ [msgAllowlist]
      else v9
    else v8
  if intent.type = "deploy_contract" ∧ p.requireAudit then
    match intent.data.auditScore with
    | some s =>
      if s ≠ 0 ∧ s < p.minAuditScore then v10 ++ [msgAudit s p.minAuditScore] else v10
    | none => v10
  else v10

/-! The same eleven rules as independent checks. -/

/-- Rule 1: deadline. -/
def checkDeadline (intent : Intent) (nowMs : Nat) : List String :=
  if intent.deadline ≠ 0 ∧ intent.deadline < nowMs / 1000 then [msgDeadline] else []

/-- Rule 2: nonce replay. -/
def checkNonce (st : FacState) (intent : Intent) : List String :=
  if intent.nonce ≠ 0 ∧ toString intent.nonce ∈ st.usedNonces then [msgNonce] else []

/-- Rule 3: intent-type allow-list. -/
def checkType (p : Policy) (intent : Intent) : List String :=
  if intent.type ∉ p.allowedIntentTypes then [msgType intent.type] else []

/-- Rule 4a: per-minute sliding-window rate limit. -/
def checkRateMinute (p : Policy) (u : Option String) (st : FacState) (nowMs : Nat) : List String :=
  if optStrTruthy u ∧ p.maxTxPerMinute ≤ ((userTxs st u).filter (inWindow nowMs 60000)).length then
    [msgRateMinute p.maxTxPerMinute]
  else []

/-- Rule 4b: per-hour sliding-window rate limit. -/
def checkRateHour (p : Policy) (u : Option String) (st : FacState) (nowMs : Nat) : List String :=
  if optStrTruthy u ∧ p.maxTxPerHour ≤ ((userTxs st u).filter (inWindow nowMs 3600000)).length then
    [msgRateHour p.maxTxPerHour]
  else []

/-- Rule 4c: per-day sliding-window rate limit. -/
def checkRateDay (p : Policy) (u : Option String) (st : FacState) (nowMs : Nat) : List String :=
  if optStrTruthy u ∧ p.maxTxPerDay ≤ ((userTxs st u).filter (inWindow nowMs 86400000)).length then
    [msgRateDay p.maxTxPerDay]
  else []

/-- Rule 5a: hourly spend cap over past recorded gas spend. -/
def checkSpendHour (p : Policy) (u : Option String) (st : FacState) (nowMs : Nat) : List String :=
  if optStrTruthy u ∧ p.maxSpendPerHour ≤
      ((userTxs st u).filter (inWindow nowMs 3600000)).foldl (fun s t => s + gasOf t) 0 then
    [msgSpendHour p.maxSpendPerHour]
  else []

/-- Rule 5b: daily spend cap over past recorded gas spend. -/
def checkSpendDay (p : Policy) (u : Option String) (st : FacState) (nowMs : Nat) : List String :=
  if optStrTruthy u ∧ p.maxSpendPerDay ≤
      ((userTxs st u).filter (inWindow nowMs 86400000)).foldl (fun s t => s + gasOf t) 0 then
    [msgSpendDay p.maxSpendPerDay]
  else []

/-- Rule 6a: contract deny-list. -/
def checkDenied (p : Policy) (intent : Intent) : List String :=
  if intent.type = "call_contract" ∧ optStrTruthy intent.data.contract ∧
      lowerStr (intent.data.contract.getD "") ∈ p.deniedContracts.map lowerStr then
    [msgDenied]
  else []

/-- Rule 6b: contract allow-list. -/
def checkAllowlist (p : Policy) (intent : Intent) : List String :=
  if intent.type = "call_contract" ∧ optStrTruthy intent.data.contract ∧
      0 < p.allowedContracts.length ∧
      lowerStr (intent.data.contract.getD "") ∉ p.allowedContracts.map lowerStr then
    [msgAllowlist]
  else []

/-- Rule 7: audit gate for deployments (note the truthiness guard on the score). -/
def checkAudit (p : Policy) (intent : Intent) : List String :=
  if intent.type = "deploy_contract" ∧ p.requireAudit then
    match intent.data.auditScore with
    | some s => if s ≠ 0 ∧ s < p.minAuditScore then [msgAudit s p.minAuditScore] else []
    | none => []
  else []

/-! ### Signature verification and intent execution -/

/-- The EIP-712 signing domain. -/
structure EIP712Domain where
  name : String
  version : String
  chainId : Nat
  verifyingContract : String
  deriving DecidableEq, Repr

/-- The canonical typed-data message signed over an intent. -/
structure IntentMessage where
  type : String
  nonce : Nat
  deadline : Nat
  dataHash : String
  deriving DecidableEq, Repr

/-- A JS signature value: either a plain string (the auto-operation markers, or
malformed bytes that make recovery throw), or a structurally valid ECDSA
signature carrying the key it was produced with and the domain/message it was
produced over. -/
inductive Signature where
  | str (s : String)
  | ecdsa (key : Nat) (domain : EIP712Domain) (message : IntentMessage)
  deriving DecidableEq, Repr

/-- The address derived from a signing key (abstract key-to-address map). -/
def addressOfKey (k : Nat) : String := "0xaddr" ++ toString k

/-- Stand-in for the unrelated address ECDSA recovery yields when the verified
message differs from the signed one. -/
def scrambledAddr (k : Nat) : String := "0xother" ++ toString k

/-- Abstract `ethers.verifyTypedData`: recovery succeeds on any structurally
valid signature, returning the signer's address exactly when the domain and
message match what was signed and an unrelated address otherwise; malformed
signature strings make it throw (`none`). -/
def verifyTypedData (domain : EIP712Domain) (message : IntentMessage) :
    Signature → Option String
  | .str _ => none
  | .ecdsa k d m =>
    some (if d = domain ∧ m = message then addressOfKey k else scrambledAddr k)

/-- Stand-in for `ethers.keccak256(ethers.toUtf8Bytes(JSON.stringify(intent.data)))`. -/
def digestData (d : IntentData) : String := "0xkeccak" ++ toString (repr d)

/-- The Chimera signing domain of `verifyIntentSignature`. -/
def chimeraDomain (chainId : Nat) (facAddr : String) : EIP712Domain where
  name := "Chimera"
  version := "1"
  chainId := chainId
  verifyingContract := facAddr

/-- The message `verifyIntentSignature` reconstructs from an intent
(`intent.dataHash || keccak256(JSON.stringify(intent.data))`). -/
def intentMessage (intent : Intent) : IntentMessage where
  type := intent.type
  nonce := intent.nonce
  deadline := intent.deadline
  dataHash :=
    match intent.dataHash with
    | some h => if h = "" then digestData intent.data else h
    | none => digestData intent.data

/-- `FacilitatorService.verifyIntentSignature`: recover an address from the
typed-data signature and return `true` whenever recovery does not throw — the
recovered address itself is logged and discarded. -/
def verifyIntentSignature (chainId : Nat) (facAddr : String) (intent : Intent)
    (sig : Signature) : Bool :=
  (verifyTypedData (chimeraDomain chainId facAddr) (intentMessage intent) sig).isSome

/-- Produce a signature over an intent with a given key (the user-side signing
operation of the round-trip property). -/
def signIntent (k : Nat) (chainId : Nat) (facAddr : String) (intent : Intent) : Signature :=
  .ecdsa k (chimeraDomain chainId facAddr) (intentMessage intent)

/-- The `auto-deploy` / `auto-transfer` / `auto-call` signature markers. -/
def isAutoOp : Signature → Bool
  | .str s => s = "auto-deploy" || s = "auto-transfer" || s = "auto-call"
  | _ => false

/-- `trackNonce`: insert a truthy nonce into the used-nonce set. -/
def trackNonce (st : FacState) (nonce : Nat) : FacState :=
  if nonce ≠ 0 then { st with usedNonces := st.usedNonces ++ [toString nonce] } else st

/-- Replace the binding of `k` in an association list (first-match lookup
semantics are preserved by shadowing). -/
def updateAssoc (l : List (String × List TxRecord)) (k : String) (v : List TxRecord) :
    List (String × List TxRecord) :=
  (k, v) :: l.filter (fun p => ¬ p.1 = k)

/-- A confirmed transaction receipt (`gasCost` stands for
`formatEther(receipt.gasUsed * receipt.gasPrice)`). -/
structure Receipt where
  hash : String
  blockNumber : Nat
  gasUsed : Nat
  gasCost : ℚ
  contractAddress : Option String := none
  deriving DecidableEq, Repr

/-- `recordTransaction`: push a ledger entry for the user and cap the per-user
history at the last 1000 entries. -/
def recordTransaction (st : FacState) (userAddress : String) (intent : Intent)
    (receipt : Receipt) (nowMs : Nat) : FacState :=
  let txs := lookupTracking st userAddress ++
    [{ timestamp := nowMs, type := intent.type, txHash := receipt.hash,
       gasSpent := some receipt.gasCost }]
  let txs := if 1000 < txs.length then txs.drop (txs.length - 1000) else txs
  { st with tracking := updateAssoc st.tracking (lowerStr userAddress) txs }

/-- A chain-mutating request produced by the dispatch switch. -/
inductive ChainReq where
  | deploy (bytecode : String) (abi : Option String) (constructorArgs : List String)
  | transferNative (recipient : Option String) (amount : Option String)
  | transferToken (token : String) (recipient : Option String) (amount : Option String)
  | callContract (contract : Option String) (method : Option String) (args : List String)
      (value : Option String)
  | swap (router : Option String) (functionName : Option String) (args : List String)
      (value : Option String)
  deriving DecidableEq, Repr

/-- The outcome the chain client reports for a submitted request. -/
inductive ChainOutcome where
  | confirmed (r : Receipt)
  | failed (msg : String)
  deriving Repr

/-- Structured execution errors (`executeUserIntent` wraps every thrown message
into `Transaction execution failed: …`; the structure is preserved here). -/
inductive ExecError where
  | invalidSignature
  | policyViolation (violations : List String)
  | thrown (msg : String)
  deriving DecidableEq, Repr

/-- The success payload returned to the caller. -/
structure ExecResult where
  txHash : String
  blockNumber : Nat
  gasUsed : Nat
  contractAddress : Option String
  deriving DecidableEq, Repr

/-- `ethers.ZeroAddress`. -/
def zeroAddress : String := "0x0000000000000000000000000000000000000000"

/-- The dispatch switch of `executeUserIntent` together with the pre-submission
checks inside `deployContract` / `transferTokens`; errors here are thrown before
any chain interaction. -/
def dispatchReq (intent : Intent) : Except ExecError ChainReq :=
  if intent.type = "deploy_contract" then
    match intent.data.bytecode with
    | some b =>
      if b ≠ "" then .ok (.deploy b intent.data.abi intent.data.constructorArgs)
      else .error (.thrown "Contract bytecode is required")
    | none => .error (.thrown "Contract bytecode is required")
  else if intent.type = "transfer" then
    match intent.data.token with
    | some t =>
      if t = zeroAddress ∨ t = "" then .ok (.transferNative intent.data.recipient intent.data.amount)
      else .ok (.transferToken t intent.data.recipient intent.data.amount)
    | none => .ok (.transferNative intent.data.recipient intent.data.amount)
  else if intent.type = "call_contract" then
    .ok (.callContract intent.data.contract intent.data.method intent.data.args intent.data.value)
  else if intent.type = "swap" then
    .ok (.swap intent.data.router intent.data.functionName intent.data.args intent.data.value)
  else .error (.thrown ("Unknown intent type: " ++ intent.type))

/-- `FacilitatorService.executeUserIntent`: verify the signature (unless an auto
operation), validate policy, commit the nonce, dispatch by intent type, await the
chain outcome and record the transaction. Returns the result, the new state and
the list of chain interactions performed. -/
def executeUserIntent (chainId : Nat) (facAddr : String) (p : Policy)
    (chain : ChainReq → ChainOutcome) (st : FacState) (intent : Intent)
    (sig : Signature) (userAddress : Option String) (nowMs : Nat) :
    Except ExecError ExecResult × FacState × List ChainReq :=
  if ¬ isAutoOp sig ∧ ¬ verifyIntentSignature chainId facAddr intent sig then
    (.error .invalidSignature, st, [])
  else
    let violations := validatePolicy p intent userAddress st nowMs
    if violations ≠ [] then (.error (.policyViolation violations), st, [])
    else
      let st1 := trackNonce st intent.nonce
      match dispatchReq intent with
      | .error e => (.error e, st1, [])
      | .ok req =>
        match chain req with
        | .failed msg => (.error (.thrown msg), st1, [req])
        | .confirmed receipt =>
          let st2 :=
            if optStrTruthy userAddress then
              recordTransaction st1 (userAddress.getD "") intent receipt nowMs
            else st1
          (.ok { txHash := receipt.hash, blockNumber := receipt.blockNumber,
                 gasUsed := receipt.gasUsed, contractAddress := receipt.contractAddress },
           st2, [req])

instance {α β : Type} [DecidableEq α] [DecidableEq β] : DecidableEq (Except α β) := fun a b =>
  match a, b with
  | .ok x, .ok y => decidable_of_iff (x = y) (by simp)
  | .error x, .error y => decidable_of_iff (x = y) (by simp)
  | .ok _, .error _ => isFalse (by simp)
  | .error _, .ok _ => isFalse (by simp)

/-! ### Concrete inputs used by the claim theorems -/

/-- A chain client that confirms every request with a fixed receipt. -/
def okChain : ChainReq → ChainOutcome :=
  fun _ => .confirmed { hash := "0xtx", blockNumber := 1, gasUsed := 21000, gasCost := 1 / 100 }

/-- The empty initial facilitator state. -/
def st0 : FacState := { usedNonces := [], tracking := [] }

/-- A transfer intent carrying nonce 0. -/
def intent0 : Intent := { type := "transfer", nonce := 0, deadline := 0, dataHash := some "0xdh" }

/-- A valid signature over `intent0`. -/
def sig0 : Signature := signIntent 7 97 "0xfac" intent0

/-- A transfer intent carrying nonce 1. -/
def intent1 : Intent := { type := "transfer", nonce := 1, deadline := 0, dataHash := some "0xdh" }

/-- A valid signature over `intent1`. -/
def sig1 : Signature := signIntent 7 97 "0xfac" intent1

/-- A transfer intent identical to `intent1` except for its nonce. -/
def intentAltered : Intent :=
  { type := "transfer", nonce := 2, deadline := 0, dataHash := some "0xdh" }

/-- Deployment data carrying `auditScore = 0`. -/
def deployData0 : IntentData := { auditScore := some 0, bytecode := some "0xbb" }

/-- A deploy intent whose attached audit score is 0. -/
def deployIntent0 : Intent :=
  { type := "deploy_contract", nonce := 11, deadline := 0, data := deployData0 }

/-- Deployment data carrying `auditScore = 60`. -/
def deployData60 : IntentData := { auditScore := some 60, bytecode := some "0xbb" }

/-- A deploy intent whose attached audit score is 60. -/
def deployIntent60 : Intent :=
  { type := "deploy_contract", nonce := 12, deadline := 0, data := deployData60 }

/-- A generation stream that yields nothing (extraction then fails every attempt). -/
def failGen : String → GenOut := fun _ => { chunks := [], err := none }

/-- An auditor that is never reached in the failing run. -/
def failAudit : String → Except String String := fun _ => .error "unused"

/-- A generation stream yielding a fenced contract. -/
def okGen : String → GenOut :=
  fun _ => { chunks := ["```solidity\ncontract A \x7b\x7d\n```"], err := none }

/-- An auditor reporting an explicit passing score. -/
def okAudit : String → Except String String := fun _ => .ok "score: 95"

/-- A response wrapping valid source (with a trailing comment) in a fenced block. -/
def resp0 : String := "```solidity\ncontract A \x7b\x7d\n// trailing\n```"

/-- A state in which nonce 5 has already been consumed. -/
def stReplay : FacState := { usedNonces := ["5"], tracking := [] }

/-- A transfer intent with an expired deadline and the already-used nonce 5. -/
def intentExp : Intent := { type := "transfer", nonce := 5, deadline := 1, dataHash := some "0xdh" }

/-- `intent1` with a different transfer amount (cost-bearing data changed). -/
def intent1w : Intent :=
  { type := "transfer", nonce := 1, deadline := 0, dataHash := some "0xdh",
    data := { amount := some "999.0" } }

/-- A ledger record 1 second old at `nowMs = 1000000`. -/
def rec999 : TxRecord :=
  { timestamp := 999000, type := "transfer", txHash := "0xh", gasSpent := some 0 }

/-- A ledger record 61 seconds old at `nowMs = 1000000`. -/
def rec939 : TxRecord :=
  { timestamp := 939000, type := "transfer", txHash := "0xh", gasSpent := some 0 }

/-- A user with exactly five transactions inside the last minute. -/
def st6 : FacState :=
  { usedNonces := [], tracking := [("0xuser", [rec999, rec999, rec999, rec999, rec999])] }

/-- The same user with one of the five transactions aged to 61 seconds. -/
def st6b : FacState :=
  { usedNonces := [], tracking := [("0xuser", [rec999, rec999, rec939, rec999, rec999])] }

/-- The facilitator state after one successful execution of `intent1`. -/
def stAfter1 : FacState :=
  { usedNonces := ["1"],
    tracking := [("0xuser", [{ timestamp := 1000000, type := "transfer", txHash := "0xtx",
                               gasSpent := some (1 / 100) }])] }

/-! ### Helper lemmas -/

theorem ite_push {c : Prop} [Decidable c] (l x : List String) :
    (if c then l ++ x else l) = l ++ (if c then x else []) := by
  split <;> simp

theorem ite_append_split {c : Prop} [Decidable c] (x y : List String) :
    (if c then x ++ y else []) = (if c then x else []) ++ (if c then y else []) := by
  split <;> simp

theorem ite_and_ite {c d : Prop} [Decidable c] [Decidable d] (x : List String) :
    (if c then (if d then x else []) else []) = if c ∧ d then x else [] := by
  by_cases hc : c <;> by_cases hd : d <;> simp [hc, hd]

theorem ite_block2 {c : Prop} [Decidable c] (l a b : List String) :
    (if c then (l ++ a) ++ b else l) =
      l ++ ((if c then a else []) ++ (if c then b else [])) := by
  split <;> simp

theorem ite_block5 {c : Prop} [Decidable c] (l a b d e f : List String) :
    (if c then ((((l ++ a) ++ b) ++ d) ++ e) ++ f else l) =
      l ++ ((if c then a else []) ++ ((if c then b else []) ++
        ((if c then d else []) ++ ((if c then e else []) ++ (if c then f else []))))) := by
  split <;> simp

/-- `validatePolicy` is the concatenation of the eleven independent rule checks:
no rule's evaluation is skipped because of an earlier failure. -/
theorem validatePolicy_decomp (p : Policy) (intent : Intent) (u : Option String)
    (st : FacState) (nowMs : Nat) :
    validatePolicy p intent u st nowMs =
      checkDeadline intent nowMs ++ checkNonce st intent ++ checkType p intent ++
      checkRateMinute p u st nowMs ++ checkRateHour p u st nowMs ++ checkRateDay p u st nowMs ++
      checkSpendHour p u st nowMs ++ checkSpendDay p u st nowMs ++
      checkDenied p intent ++ checkAllowlist p intent ++ checkAudit p intent := by
  cases hsc : intent.data.auditScore <;>
    simp only [validatePolicy, hsc, ite_push, ite_block2, ite_block5] <;>
    simp only [checkDeadline, checkNonce, checkType, checkRateMinute, checkRateHour,
      checkRateDay, checkSpendHour, checkSpendDay, checkDenied, checkAllowlist, checkAudit,
      hsc, ite_and_ite, and_assoc, List.append_assoc, List.nil_append, ite_self,
      List.append_nil]

theorem foldl_gas (l : List TxRecord) (a : ℚ) :
    l.foldl (fun s t => s + gasOf t) a = a + (l.map gasOf).sum := by
  induction l generalizing a with
  | nil => simp
  | cons t ts ih => simp [ih, add_assoc]

/-- A signature-accepting call reaching a non-empty violation list returns the
whole list as a policy violation, leaves the state untouched and performs no
chain interaction. -/
theorem executeUserIntent_violation (chainId : Nat) (facAddr : String) (p : Policy)
    (chain : ChainReq → ChainOutcome) (st : FacState) (intent : Intent) (sig : Signature)
    (u : Option String) (nowMs : Nat)
    (hs : isAutoOp sig = true ∨ verifyIntentSignature chainId facAddr intent sig = true)
    (hne : validatePolicy p intent u st nowMs ≠ []) :
    executeUserIntent chainId facAddr p chain st intent sig u nowMs =
      (.error (.policyViolation (validatePolicy p intent u st nowMs)), st, []) := by
  have hcond : ¬ (¬ isAutoOp sig = true ∧
      ¬ verifyIntentSignature chainId facAddr intent sig = true) := by
    rcases hs with h | h <;> simp [h]
  unfold executeUserIntent
  rw [if_neg hcond]
  simp only [ne_eq, hne, not_false_iff, if_pos, if_true]

/-- The used-nonce set after a call is either unchanged or the tracked extension. -/
theorem executeUserIntent_usedNonces (chainId : Nat) (facAddr : String) (p : Policy)
    (chain : ChainReq → ChainOutcome) (st : FacState) (intent : Intent) (sig : Signature)
    (u : Option String) (nowMs : Nat) :
    (executeUserIntent chainId facAddr p chain st intent sig u nowMs).2.1.usedNonces =
        st.usedNonces ∨
    (executeUserIntent chainId facAddr p chain st intent sig u nowMs).2.1.usedNonces =
        (trackNonce st intent.nonce).usedNonces := by
  unfold executeUserIntent
  split
  · exact Or.inl rfl
  · dsimp only
    split
    · exact Or.inl rfl
    · split
      · exact Or.inr rfl
      · split
        · exact Or.inr rfl
        · dsimp only
          split
          · exact Or.inr rfl
          · exact Or.inr rfl

/-- A successful call with a truthy nonce leaves that nonce in the used set. -/
theorem executeUserIntent_ok_nonce_tracked (chainId : Nat) (facAddr : String) (p : Policy)
    (chain : ChainReq → ChainOutcome) (st : FacState) (intent : Intent) (sig : Signature)
    (u : Option String) (nowMs : Nat) (r : ExecResult) (st' : FacState) (log : List ChainReq)
    (h : executeUserIntent chainId facAddr p chain st intent sig u nowMs = (.ok r, st', log))
    (hn : intent.nonce ≠ 0) :
    toString intent.nonce ∈ st'.usedNonces := by
  unfold executeUserIntent at h
  split at h
  · simp at h
  · dsimp only at h
    split at h
    · simp at h
    · split at h
      · simp at h
      · split at h
        · simp at h
        · have hst' : st'.usedNonces = (trackNonce st intent.nonce).usedNonces := by
            split at h <;> · cases h; rfl
          rw [hst', trackNonce, if_pos hn]
          simp

/-! ### Claim theorems -/

/-- C1. Signature round-trip: the spec requires `verify` to return the signer's
address and to fail when the signed nonce/deadline is altered. The code instead
returns a bare boolean that is `true` for any structurally valid signature: a
signature produced over `intentBase`'s message still verifies against the
altered-nonce intent, even though the recovered address is not the signer's —
the recovered address is computed and then discarded. Evaluated at the failing
input. -/
theorem C1_signature_round_trip_code_bug :
    verifyIntentSignature 97 "0xfac" intentAltered (signIntent 5 97 "0xfac" intent1) = true ∧
    verifyTypedData (chimeraDomain 97 "0xfac") (intentMessage intentAltered)
        (signIntent 5 97 "0xfac" intent1) ≠ some (addressOfKey 5) := by
  decide

/-- C2 counterexample. The replay invariant fails at nonce 0: a first
`executeUserIntent` with nonce 0 succeeds, and the identical second call — same
nonce, run from the post-state of the first — succeeds again instead of being
rejected with a replay violation, because the truthiness guards in `trackNonce`
and the nonce rule skip falsy nonces. -/
theorem C2_counterexample_nonce_zero :
    executeUserIntent 97 "0xfac" POLICY okChain st0 intent0 sig0 (some "0xUser") 1000000 =
      (.ok { txHash := "0xtx", blockNumber := 1, gasUsed := 21000, contractAddress := none },
       { usedNonces := [],
         tracking := [("0xuser", [{ timestamp := 1000000, type := "transfer", txHash := "0xtx",
                                    gasSpent := some (1 / 100) }])] },
       [ChainReq.transferNative none none]) ∧
    (executeUserIntent 97 "0xfac" POLICY okChain
        { usedNonces := [],
          tracking := [("0xuser", [{ timestamp := 1000000, type := "transfer", txHash := "0xtx",
                                     gasSpent := some (1 / 100) }])] }
        intent0 sig0 (some "0xUser") 1000000).1 =
      .ok { txHash := "0xtx", blockNumber := 1, gasUsed := 21000, contractAddress := none } := by
  constructor
  · rfl
  · set_option maxRecDepth 8000 in with_unfolding_all rfl

/-- C3 counterexample. A `deploy_contract` intent whose attached `auditScore`
equals 0 — below the minimum 80, with `requireAudit` set — passes validation
with no violations, and `executeUserIntent` proceeds to dispatch a deployment
to the chain. -/
theorem C3_counterexample_zero_audit_score :
    validatePolicy POLICY deployIntent0 none st0 1000000 = [] ∧
    (executeUserIntent 97 "0xfac" POLICY okChain st0 deployIntent0 (.str "auto-deploy")
        none 1000000).2.2 = [ChainReq.deploy "0xbb" none []] := by
  decide

/-- C8 counterexample. A run of `generateWithAudit` with `maxRetries = 3` in
which every attempt's extraction fails yields no `success` and no `failed`
event at all — its final event is an `error` event — refuting "exactly one
terminal event drawn from success/failed as the sequence's final event". -/
theorem C8_counterexample_error_run :
    (generateWithAudit failGen failAudit 80 "p" 3).1.filter isTerminalEvent = [] ∧
    (generateWithAudit failGen failAudit 80 "p" 3).1.getLast? =
      some (.error 3 "Could not extract Solidity code from response") := by
  decide

/-- C9 counterexample. For a fenced block containing valid source with a
trailing comment after the last closing brace, extraction returns the fenced
content trimmed of whitespace only — not trimmed to the last closing brace as
the claim states. -/
theorem C9_counterexample_trailing_text :
    extractSolidityCode resp0 = some "contract A \x7b\x7d\n// trailing" ∧
    ("contract A \x7b\x7d\n// trailing" : String) ≠ "contract A \x7b\x7d" := by
  decide

/-- C2 amended. Replay invariant for truthy nonces: a successful
`executeUserIntent` leaves its (nonzero) nonce in the used set; no call ever
removes a used nonce; and any call presenting an already-used nonzero nonce
whose signature is accepted is rejected with a `PolicyViolation` whose list
contains the replay reason — regardless of the intent's type or user. -/
theorem C2_replay_invariant_amended :
    (∀ chainId facAddr p chain st intent sig u nowMs r st' log,
      executeUserIntent chainId facAddr p chain st intent sig u nowMs = (.ok r, st', log) →
      intent.nonce ≠ 0 →
      toString intent.nonce ∈ st'.usedNonces) ∧
    (∀ chainId facAddr p chain st intent sig u nowMs (n : String),
      n ∈ st.usedNonces →
      n ∈ (executeUserIntent chainId facAddr p chain st intent sig u nowMs).2.1.usedNonces) ∧
    (∀ chainId facAddr p chain st intent sig u nowMs,
      (isAutoOp sig = true ∨ verifyIntentSignature chainId facAddr intent sig = true) →
      intent.nonce ≠ 0 →
      toString intent.nonce ∈ st.usedNonces →
      ∃ vs, (executeUserIntent chainId facAddr p chain st intent sig u nowMs).1 =
          .error (.policyViolation vs) ∧ msgNonce ∈ vs) := by
  refine ⟨?_, ?_, ?_⟩
  · intro chainId facAddr p chain st intent sig u nowMs r st' log h hn
    exact executeUserIntent_ok_nonce_tracked chainId facAddr p chain st intent sig u nowMs
      r st' log h hn
  · intro chainId facAddr p chain st intent sig u nowMs n hmem
    rcases executeUserIntent_usedNonces chainId facAddr p chain st intent sig u nowMs with h | h
    · rw [h]; exact hmem
    · rw [h]; unfold trackNonce; split
      · simp only [List.mem_append]; exact Or.inl hmem
      · exact hmem
  · intro chainId facAddr p chain st intent sig u nowMs hs hn hmem
    have hck : checkNonce st intent = [msgNonce] := by
      simp [checkNonce, hn, hmem]
    have hin : msgNonce ∈ validatePolicy p intent u st nowMs := by
      rw [validatePolicy_decomp]
      simp [hck]
    have hne : validatePolicy p intent u st nowMs ≠ [] := by
      intro he
      rw [he] at hin
      exact absurd hin (List.not_mem_nil _)
    refine ⟨validatePolicy p intent u st nowMs, ?_, hin⟩
    rw [executeUserIntent_violation chainId facAddr p chain st intent sig u nowMs hs hne]

/-- C2 witness: a concrete successful run with nonce 1 tracks the nonce, a later
call keeps it, and the concrete replayed call is rejected with the replay
reason in its violation list. -/
theorem C2_replay_invariant_witness :
    toString intent1.nonce ∈ stAfter1.usedNonces ∧
    toString intent1.nonce ∈
      (executeUserIntent 97 "0xfac" POLICY okChain stAfter1 intentAltered
        (signIntent 7 97 "0xfac" intentAltered) (some "0xUser") 2000000).2.1.usedNonces ∧
    ∃ vs, (executeUserIntent 97 "0xfac" POLICY okChain stAfter1 intent1 sig1
        (some "0xUser") 2000000).1 = .error (.policyViolation vs) ∧ msgNonce ∈ vs := by
  refine ⟨?_, ?_, ?_⟩
  · exact C2_replay_invariant_amended.1 97 "0xfac" POLICY okChain st0 intent1 sig1
      (some "0xUser") 1000000
      { txHash := "0xtx", blockNumber := 1, gasUsed := 21000, contractAddress := none }
      stAfter1 [ChainReq.transferNative none none] rfl (by decide)
  · exact C2_replay_invariant_amended.2.1 97 "0xfac" POLICY okChain stAfter1 intentAltered
      (signIntent 7 97 "0xfac" intentAltered) (some "0xUser") 2000000
      (toString intent1.nonce) (by decide)
  · exact C2_replay_invariant_amended.2.2 97 "0xfac" POLICY okChain stAfter1 intent1 sig1
      (some "0xUser") 2000000 (Or.inr (by decide)) (by decide) (by decide)

/-- C3 amended. Audit gate for truthy scores: a `deploy_contract` intent whose
attached `auditScore` is nonzero and below the configured minimum, validated
under a policy requiring audits, is rejected with the audit-threshold violation
and no chain interaction is attempted for it. -/
theorem C3_audit_gate_amended (chainId : Nat) (facAddr : String) (p : Policy)
    (chain : ChainReq → ChainOutcome) (st : FacState) (intent : Intent) (sig : Signature)
    (u : Option String) (nowMs : Nat) (s : Nat)
    (htype : intent.type = "deploy_contract") (hreq : p.requireAudit = true)
    (hsc : intent.data.auditScore = some s) (hs0 : s ≠ 0) (hlt : s < p.minAuditScore)
    (hsig : isAutoOp sig = true ∨ verifyIntentSignature chainId facAddr intent sig = true) :
    msgAudit s p.minAuditScore ∈ validatePolicy p intent u st nowMs ∧
    (executeUserIntent chainId facAddr p chain st intent sig u nowMs).1 =
      .error (.policyViolation (validatePolicy p intent u st nowMs)) ∧
    (executeUserIntent chainId facAddr p chain st intent sig u nowMs).2.2 = [] := by
  have hca : checkAudit p intent = [msgAudit s p.minAuditScore] := by
    simp [checkAudit, htype, hreq, hsc, hs0, hlt]
  have hin : msgAudit s p.minAuditScore ∈ validatePolicy p intent u st nowMs := by
    rw [validatePolicy_decomp]
    simp [hca]
  have hne : validatePolicy p intent u st nowMs ≠ [] := by
    intro he
    rw [he] at hin
    exact absurd hin (List.not_mem_nil _)
  have hx := executeUserIntent_violation chainId facAddr p chain st intent sig u nowMs hsig hne
  exact ⟨hin, by rw [hx], by rw [hx]⟩

/-- C3 witness: the concrete score-60 deployment is rejected with the
audit-threshold message and no chain request is dispatched. -/
theorem C3_audit_gate_witness :
    msgAudit 60 POLICY.minAuditScore ∈
      validatePolicy POLICY deployIntent60 none st0 1000000 ∧
    (executeUserIntent 97 "0xfac" POLICY okChain st0 deployIntent60 (.str "auto-deploy")
        none 1000000).1 =
      .error (.policyViolation (validatePolicy POLICY deployIntent60 none st0 1000000)) ∧
    (executeUserIntent 97 "0xfac" POLICY okChain st0 deployIntent60 (.str "auto-deploy")
        none 1000000).2.2 = [] :=
  C3_audit_gate_amended 97 "0xfac" POLICY okChain st0 deployIntent60 (.str "auto-deploy")
    none 1000000 60 rfl rfl rfl (by decide) (by decide) (Or.inl (by decide))

/-- C4. For a `deploy_contract` intent whose data carries no `auditScore` or an
`auditScore` of 0, the audit rule produces no violation and `validatePolicy`
behaves exactly as if `requireAudit` were off, even with `requireAudit = true`
and `minAuditScore = 80`: the truthiness guard skips the threshold comparison. -/
theorem C4_truthiness_skips_audit_gate (p : Policy) (intent : Intent) (u : Option String)
    (st : FacState) (nowMs : Nat)
    (htype : intent.type = "deploy_contract") (hreq : p.requireAudit = true)
    (hmin : p.minAuditScore = 80)
    (hscore : intent.data.auditScore = none ∨ intent.data.auditScore = some 0) :
    checkAudit p intent = [] ∧
    validatePolicy p intent u st nowMs =
      validatePolicy { p with requireAudit := false } intent u st nowMs := by
  have hca : checkAudit p intent = [] := by
    rcases hscore with h | h <;> simp [checkAudit, h]
  have hca' : checkAudit { p with requireAudit := false } intent = [] := by
    simp [checkAudit]
  refine ⟨hca, ?_⟩
  rw [validatePolicy_decomp, validatePolicy_decomp, hca, hca']
  rfl

/-- C4 witness: the concrete zero-score deployment under the default policy. -/
theorem C4_truthiness_witness :
    checkAudit POLICY deployIntent0 = [] ∧
    validatePolicy POLICY deployIntent0 none st0 1000000 =
      validatePolicy { POLICY with requireAudit := false } deployIntent0 none st0 1000000 :=
  C4_truthiness_skips_audit_gate POLICY deployIntent0 none st0 1000000 rfl rfl rfl
    (Or.inr rfl)

/-- C5. Policy validation evaluates the eleven rules independently without
short-circuiting — the result is the concatenation of every rule's own check —
and a signature-accepting call with any violation receives the complete list. -/
theorem C5_all_violations_accumulated (p : Policy) (intent : Intent) (u : Option String)
    (st : FacState) (nowMs : Nat) (chainId : Nat) (facAddr : String)
    (chain : ChainReq → ChainOutcome) (sig : Signature) :
    validatePolicy p intent u st nowMs =
      checkDeadline intent nowMs ++ checkNonce st intent ++ checkType p intent ++
      checkRateMinute p u st nowMs ++ checkRateHour p u st nowMs ++ checkRateDay p u st nowMs ++
      checkSpendHour p u st nowMs ++ checkSpendDay p u st nowMs ++
      checkDenied p intent ++ checkAllowlist p intent ++ checkAudit p intent ∧
    (validatePolicy p intent u st nowMs ≠ [] →
      (isAutoOp sig = true ∨ verifyIntentSignature chainId facAddr intent sig = true) →
      (executeUserIntent chainId facAddr p chain st intent sig u nowMs).1 =
        .error (.policyViolation (validatePolicy p intent u st nowMs))) := by
  refine ⟨validatePolicy_decomp p intent u st nowMs, fun hne hs => ?_⟩
  rw [executeUserIntent_violation chainId facAddr p chain st intent sig u nowMs hs hne]

/-- C5 witness: a concrete intent violating both the deadline and the replay
rule is rejected with both messages, in rule order. -/
theorem C5_witness :
    validatePolicy POLICY intentExp none stReplay 2000000 = [msgDeadline, msgNonce] ∧
    (executeUserIntent 97 "0xfac" POLICY okChain stReplay intentExp (.str "auto-transfer")
        none 2000000).1 =
      .error (.policyViolation (validatePolicy POLICY intentExp none stReplay 2000000)) := by
  constructor
  · decide
  · exact (C5_all_violations_accumulated POLICY intentExp none stReplay 2000000 97 "0xfac"
      okChain (.str "auto-transfer")).2 (by decide) (Or.inl (by decide))

/-- C7. Spend-limit evaluation depends only on past recorded spend: the hourly
and daily spend checks compare the configured caps against the sum of `gasSpent`
over the ledger's transactions inside each window; the outcome of validation is
unchanged by any data fields of the pending intent other than the contract
target and audit score (in particular by its amounts/values); and validation
never consults `maxSpendPerTx`. -/
theorem C7_spend_checks_past_only (p : Policy) (u : Option String) (st : FacState)
    (nowMs : Nat) :
    (checkSpendHour p u st nowMs =
      if optStrTruthy u ∧ p.maxSpendPerHour ≤
          (((userTxs st u).filter (inWindow nowMs 3600000)).map gasOf).sum then
        [msgSpendHour p.maxSpendPerHour]
      else []) ∧
    (checkSpendDay p u st nowMs =
      if optStrTruthy u ∧ p.maxSpendPerDay ≤
          (((userTxs st u).filter (inWindow nowMs 86400000)).map gasOf).sum then
        [msgSpendDay p.maxSpendPerDay]
      else []) ∧
    (∀ i1 i2 : Intent, i1.type = i2.type → i1.nonce = i2.nonce → i1.deadline = i2.deadline →
      i1.data.contract = i2.data.contract → i1.data.auditScore = i2.data.auditScore →
      validatePolicy p i1 u st nowMs = validatePolicy p i2 u st nowMs) ∧
    (∀ (intent : Intent) (v : ℚ),
      validatePolicy { p with maxSpendPerTx := v } intent u st nowMs =
        validatePolicy p intent u st nowMs) := by
  refine ⟨?_, ?_, ?_, ?_⟩
  · simp [checkSpendHour, foldl_gas]
  · simp [checkSpendDay, foldl_gas]
  · intro i1 i2 h1 h2 h3 h4 h5
    simp only [validatePolicy, h1, h2, h3, h4, h5]
  · intro intent v
    rfl

/-- C7 witness: concrete instantiations of the intent-irrelevance and the
`maxSpendPerTx`-irrelevance conjuncts. -/
theorem C7_witness :
    validatePolicy POLICY intent1 (some "0xUser") st0 1000000 =
      validatePolicy POLICY intent1w (some "0xUser") st0 1000000 ∧
    validatePolicy { POLICY with maxSpendPerTx := 99 } intent1 (some "0xUser") st0 1000000 =
      validatePolicy POLICY intent1 (some "0xUser") st0 1000000 :=
  ⟨(C7_spend_checks_past_only POLICY (some "0xUser") st0 1000000).2.2.1 intent1 intent1w
      rfl rfl rfl rfl rfl,
   (C7_spend_checks_past_only POLICY (some "0xUser") st0 1000000).2.2.2 intent1 99⟩

/-- C6. Sliding-window rate limit under the default policy: a user whose ledger
holds exactly `maxTxPerMinute` transactions all timestamped within the last 60
seconds has the next intent rejected with the per-minute rate violation; with
one of those transactions aged to 61 seconds (all else equal) none of the three
rate rules fires. -/
theorem C6_sliding_window_rate_limit :
    (∀ (a : String) (st : FacState) (nowMs : Nat) (intent : Intent),
      a ≠ "" →
      (userTxs st (some a)).length = POLICY.maxTxPerMinute →
      (∀ t ∈ userTxs st (some a), (nowMs : Int) - (t.timestamp : Int) < 60000) →
      msgRateMinute POLICY.maxTxPerMinute ∈ validatePolicy POLICY intent (some a) st nowMs) ∧
    (∀ (a : String) (st : FacState) (nowMs : Nat) (l1 l2 : List TxRecord) (t0 : TxRecord),
      a ≠ "" →
      userTxs st (some a) = l1 ++ t0 :: l2 →
      (l1 ++ l2).length = POLICY.maxTxPerMinute - 1 →
      (∀ t ∈ l1 ++ l2, (nowMs : Int) - (t.timestamp : Int) < 60000) →
      (nowMs : Int) - (t0.timestamp : Int) = 61000 →
      checkRateMinute POLICY (some a) st nowMs = [] ∧
      checkRateHour POLICY (some a) st nowMs = [] ∧
      checkRateDay POLICY (some a) st nowMs = []) := by
  constructor
  · intro a st nowMs intent ha hlen hwin
    have htru : optStrTruthy (some a) = true := by simp [optStrTruthy, ha]
    have hfilt : (userTxs st (some a)).filter (inWindow nowMs 60000) = userTxs st (some a) := by
      rw [List.filter_eq_self]
      intro t ht
      simp only [inWindow, decide_eq_true_eq]
      exact hwin t ht
    have hcm : checkRateMinute POLICY (some a) st nowMs =
        [msgRateMinute POLICY.maxTxPerMinute] := by
      rw [checkRateMinute, if_pos]
      exact ⟨htru, by rw [hfilt, hlen]⟩
    rw [validatePolicy_decomp]
    simp [hcm]
  · intro a st nowMs l1 l2 t0 ha heq hlen hwin ht0
    have hlen4 : (l1 ++ l2).length = 4 := hlen
    have hfl1 : ∀ w : Nat, 60000 ≤ w → l1.filter (inWindow nowMs w) = l1 := by
      intro w hw
      rw [List.filter_eq_self]
      intro t ht
      simp only [inWindow, decide_eq_true_eq]
      have := hwin t (List.mem_append.mpr (Or.inl ht))
      omega
    have hfl2 : ∀ w : Nat, 60000 ≤ w → l2.filter (inWindow nowMs w) = l2 := by
      intro w hw
      rw [List.filter_eq_self]
      intro t ht
      simp only [inWindow, decide_eq_true_eq]
      have := hwin t (List.mem_append.mpr (Or.inr ht))
      omega
    have ht0m : inWindow nowMs 60000 t0 = false := by
      simp only [inWindow, decide_eq_false_iff_not, not_lt]
      omega
    have ht0h : ∀ w : Nat, 61001 ≤ w → inWindow nowMs w t0 = true := by
      intro w hw
      simp only [inWindow, decide_eq_true_eq]
      omega
    have hm : ((userTxs st (some a)).filter (inWindow nowMs 60000)).length = 4 := by
      rw [heq, List.filter_append, List.filter_cons, ht0m, hfl1 60000 le_rfl,
        hfl2 60000 le_rfl]
      simpa using hlen4
    have hh : ((userTxs st (some a)).filter (inWindow nowMs 3600000)).length = 5 := by
      rw [heq, List.filter_append, List.filter_cons, ht0h 3600000 (by omega),
        hfl1 3600000 (by omega), hfl2 3600000 (by omega)]
      simp only [eq_self_iff_true, if_true, List.length_append, List.length_cons] at hlen4 ⊢
      omega
    have hd : ((userTxs st (some a)).filter (inWindow nowMs 86400000)).length = 5 := by
      rw [heq, List.filter_append, List.filter_cons, ht0h 86400000 (by omega),
        hfl1 86400000 (by omega), hfl2 86400000 (by omega)]
      simp only [eq_self_iff_true, if_true, List.length_append, List.length_cons] at hlen4 ⊢
      omega
    refine ⟨?_, ?_, ?_⟩
    · rw [checkRateMinute, if_neg]
      rw [hm]
      intro hcon
      exact absurd hcon.2 (by decide)
    · rw [checkRateHour, if_neg]
      rw [hh]
      intro hcon
      exact absurd hcon.2 (by decide)
    · rw [checkRateDay, if_neg]
      rw [hd]
      intro hcon
      exact absurd hcon.2 (by decide)

/-- C6 witness: the concrete five-transactions-in-a-minute ledger is rejected
with the per-minute message, and the 61-second-aged variant passes all three
rate rules. -/
theorem C6_witness :
    msgRateMinute POLICY.maxTxPerMinute ∈
      validatePolicy POLICY intent1 (some "0xUser") st6 1000000 ∧
    (checkRateMinute POLICY (some "0xUser") st6b 1000000 = [] ∧
     checkRateHour POLICY (some "0xUser") st6b 1000000 = [] ∧
     checkRateDay POLICY (some "0xUser") st6b 1000000 = []) :=
  ⟨C6_sliding_window_rate_limit.1 "0xUser" st6 1000000 intent1 (by decide) (by decide)
      (by decide),
   C6_sliding_window_rate_limit.2 "0xUser" st6b 1000000 [rec999, rec999] [rec999, rec999]
      rec939 (by decide) (by decide) (by decide) (by decide) (by decide)⟩

theorem filter_chunks (p : AuditEvent → Bool) (h : ∀ s, p (AuditEvent.codeChunk s) = false)
    (l : List String) : (l.map AuditEvent.codeChunk).filter p = [] := by
  induction l with
  | nil => rfl
  | cons s ss ih => simp [List.filter_cons, h, ih]

/-- Event-shape analysis of one loop iteration's try block: a thrown attempt
contributes no attempt/terminal/error events of its own; a halting attempt
contributes exactly one terminal event, as its last event; a retrying attempt
contributes none of the three and can only occur while `attempt < maxRetries`. -/
theorem attemptBody_cases (gen : String → GenOut) (audit : String → Except String String)
    (threshold maxRetries attempt : Nat) (op cp : String) :
    (∃ pre msg, attemptBody gen audit threshold maxRetries attempt op cp = .thrown pre msg ∧
      pre.filter isAttemptEvent = [] ∧ pre.filter isTerminalEvent = [] ∧
      pre.filter isErrorEvent = []) ∨
    (∃ evs, attemptBody gen audit threshold maxRetries attempt op cp = .halt evs ∧
      evs.filter isAttemptEvent = [] ∧ (evs.filter isTerminalEvent).length = 1 ∧
      evs.filter isErrorEvent = [] ∧
      ∃ e, evs.getLast? = some e ∧ isTerminalEvent e = true) ∨
    (∃ evs np, attemptBody gen audit threshold maxRetries attempt op cp = .again evs np ∧
      attempt < maxRetries ∧
      evs.filter isAttemptEvent = [] ∧ evs.filter isTerminalEvent = [] ∧
      evs.filter isErrorEvent = []) := by
  have hca : ∀ l : List String, (l.map AuditEvent.codeChunk).filter isAttemptEvent = [] :=
    filter_chunks _ (fun _ => rfl)
  have hct : ∀ l : List String, (l.map AuditEvent.codeChunk).filter isTerminalEvent = [] :=
    filter_chunks _ (fun _ => rfl)
  have hce : ∀ l : List String, (l.map AuditEvent.codeChunk).filter isErrorEvent = [] :=
    filter_chunks _ (fun _ => rfl)
  unfold attemptBody
  dsimp only
  cases hgen : (gen cp).err with
  | some e =>
    exact Or.inl ⟨_, _, rfl, hca _, hct _, hce _⟩
  | none =>
    dsimp only
    cases hext : extractSolidityCode (String.join (gen cp).chunks) with
    | none =>
      exact Or.inl ⟨_, _, rfl, hca _, hct _, hce _⟩
    | some code =>
      dsimp only
      cases haud : audit code with
      | error e =>
        refine Or.inl ⟨_, _, rfl, ?_, ?_, ?_⟩ <;>
          simp [List.filter_append, hca, hct, hce, List.filter_cons, isAttemptEvent,
            isTerminalEvent, isErrorEvent]
      | ok report =>
        dsimp only
        by_cases hsc : threshold ≤ extractAuditScore report
        · rw [if_pos hsc]
          refine Or.inr (Or.inl ⟨_, rfl, ?_, ?_, ?_, ?_⟩)
          · simp [List.filter_append, hca, List.filter_cons, isAttemptEvent]
          · simp [List.filter_append, hct, List.filter_cons, isTerminalEvent]
          · simp [List.filter_append, hce, List.filter_cons, isErrorEvent]
          · exact ⟨_, List.getLast?_concat _, rfl⟩
        · rw [if_neg hsc]
          by_cases hat : attempt < maxRetries
          · rw [if_pos hat]
            refine Or.inr (Or.inr ⟨_, _, rfl, hat, ?_, ?_, ?_⟩) <;>
              simp [List.filter_append, hca, hct, hce, List.filter_cons, isAttemptEvent,
                isTerminalEvent, isErrorEvent]
          · rw [if_neg hat]
            refine Or.inr (Or.inl ⟨_, rfl, ?_, ?_, ?_, ?_⟩)
            · simp [List.filter_append, hca, List.filter_cons, isAttemptEvent]
            · simp [List.filter_append, hct, List.filter_cons, isTerminalEvent]
            · simp [List.filter_append, hce, List.filter_cons, isErrorEvent]
            · exact ⟨_, List.getLast?_concat _, rfl⟩

theorem getLast?_append_right {α : Type} (l1 l2 : List α) (e : α) (h : l2.getLast? = some e) :
    (l1 ++ l2).getLast? = some e := by
  have hne : l2 ≠ [] := by
    intro hl
    rw [hl] at h
    simp at h
  rw [List.getLast?_append_of_ne_nil l1 hne, h]

/-- Invariant of the retry loop: over any tail of the iteration space, the
yielded events contain at most `remaining` attempt events, at most one terminal
event, and — when no error event occurs and at least one iteration runs —
exactly one terminal event, placed last. -/
theorem auditLoopGo_spec (gen : String → GenOut) (audit : String → Except String String)
    (threshold : Nat) (op : String) (maxRetries : Nat) :
    ∀ (remaining attempt : Nat) (cp : String), attempt + remaining = maxRetries + 1 →
      ((auditLoopGo gen audit threshold op maxRetries remaining attempt cp).1.filter
          isAttemptEvent).length ≤ remaining ∧
      ((auditLoopGo gen audit threshold op maxRetries remaining attempt cp).1.filter
          isTerminalEvent).length ≤ 1 ∧
      ((auditLoopGo gen audit threshold op maxRetries remaining attempt cp).1.filter
          isErrorEvent = [] → 1 ≤ remaining →
        ((auditLoopGo gen audit threshold op maxRetries remaining attempt cp).1.filter
            isTerminalEvent).length = 1 ∧
        ∃ e, (auditLoopGo gen audit threshold op maxRetries remaining attempt cp).1.getLast? =
            some e ∧ isTerminalEvent e = true) := by
  intro remaining
  induction remaining with
  | zero =>
    intro attempt cp hinv
    exact ⟨by simp [auditLoopGo], by simp [auditLoopGo], fun _ h => absurd h (by omega)⟩
  | succ n ih =>
    intro attempt cp hinv
    rcases attemptBody_cases gen audit threshold maxRetries attempt op cp with
      ⟨pre, msg, hab, hpa, hpt, hpe⟩ | ⟨evs, hab, hea, het, hee, e, hlast, hterm⟩ |
      ⟨evs, np, hab, hat, hea, het, hee⟩
    · by_cases hmax : maxRetries ≤ attempt
      · have hres : auditLoopGo gen audit threshold op maxRetries (n + 1) attempt cp =
            ([AuditEvent.attempt attempt maxRetries,
              AuditEvent.status "Generating contract..."] ++ pre ++
              [AuditEvent.error attempt msg], some msg) := by
          simp [auditLoopGo, hab, hmax]
        rw [hres]
        refine ⟨?_, ?_, fun herr _ => ?_⟩
        · simp [List.filter_append, hpa, List.filter_cons, isAttemptEvent]
        · simp [List.filter_append, hpt, List.filter_cons, isTerminalEvent]
        · exfalso
          simp [List.filter_append, hpe, List.filter_cons, isErrorEvent] at herr
      · have hrec := ih (attempt + 1) cp (by omega)
        have hres : auditLoopGo gen audit threshold op maxRetries (n + 1) attempt cp =
            (([AuditEvent.attempt attempt maxRetries,
               AuditEvent.status "Generating contract..."] ++ pre ++
               [AuditEvent.error attempt msg]) ++
               (auditLoopGo gen audit threshold op maxRetries n (attempt + 1) cp).1,
             (auditLoopGo gen audit threshold op maxRetries n (attempt + 1) cp).2) := by
          simp [auditLoopGo, hab, hmax]
        rw [hres]
        refine ⟨?_, ?_, fun herr _ => ?_⟩
        · have h1 := hrec.1
          simp only [List.filter_append, List.length_append, hpa, List.filter_cons] at *
          simp only [isAttemptEvent] at *
          simp at *
          omega
        · have h2 := hrec.2.1
          simp only [List.filter_append, List.length_append, hpt, List.filter_cons] at *
          simp only [isTerminalEvent] at *
          simp at *
          omega
        · exfalso
          simp [List.filter_append, hpe, List.filter_cons, isErrorEvent] at herr
    · have hres : auditLoopGo gen audit threshold op maxRetries (n + 1) attempt cp =
          ([AuditEvent.attempt attempt maxRetries,
            AuditEvent.status "Generating contract..."] ++ evs, none) := by
        simp [auditLoopGo, hab]
      rw [hres]
      refine ⟨?_, ?_, fun _ _ => ⟨?_, ?_⟩⟩
      · simp [List.filter_append, hea, List.filter_cons, isAttemptEvent]
      · simp [List.filter_append, List.filter_cons, isTerminalEvent, het]
      · simp [List.filter_append, List.filter_cons, isTerminalEvent, het]
      · exact ⟨e, getLast?_append_right _ _ _ hlast, hterm⟩
    · have h1n : 1 ≤ n := by omega
      have hrec := ih (attempt + 1) np (by omega)
      have hres : auditLoopGo gen audit threshold op maxRetries (n + 1) attempt cp =
          (([AuditEvent.attempt attempt maxRetries,
             AuditEvent.status "Generating contract..."] ++ evs) ++
             (auditLoopGo gen audit threshold op maxRetries n (attempt + 1) np).1,
           (auditLoopGo gen audit threshold op maxRetries n (attempt + 1) np).2) := by
        simp [auditLoopGo, hab]
      rw [hres]
      refine ⟨?_, ?_, fun herr _ => ?_⟩
      · have h1 := hrec.1
        simp only [List.filter_append, List.length_append, hea, List.filter_cons] at *
        simp only [isAttemptEvent] at *
        simp at *
        omega
      · have h2 := hrec.2.1
        simp only [List.filter_append, List.length_append, het, List.filter_cons] at *
        simp only [isTerminalEvent] at *
        simp at *
        omega
      · have herr' : (auditLoopGo gen audit threshold op maxRetries n (attempt + 1) np).1.filter
            isErrorEvent = [] := by
          rw [List.filter_append] at herr
          exact (List.append_eq_nil.mp herr).2
        have hc := hrec.2.2 herr' h1n
        constructor
        · simp [List.filter_append, het, List.filter_cons, isTerminalEvent, hc.1]
        · obtain ⟨e', he1, he2⟩ := hc.2
          refine ⟨e', ?_, he2⟩
          exact getLast?_append_right _ _ e' he1

/-- C8 amended. For `maxRetries = 3` and any generation/audit behaviour, the
generator yields at most 3 attempt events and never more than one terminal
event; in every run that yields no error event, it yields exactly one terminal
event drawn from success/failed, and that terminal event is the sequence's
final event. (A run whose final attempt throws ends in an error event and
yields no terminal event — see the counterexample.) -/
theorem C8_audit_loop_events_amended (gen : String → GenOut)
    (audit : String → Except String String) (threshold : Nat) (prompt : String) :
    ((generateWithAudit gen audit threshold prompt 3).1.filter isAttemptEvent).length ≤ 3 ∧
    ((generateWithAudit gen audit threshold prompt 3).1.filter isTerminalEvent).length ≤ 1 ∧
    ((generateWithAudit gen audit threshold prompt 3).1.filter isErrorEvent = [] →
      ((generateWithAudit gen audit threshold prompt 3).1.filter isTerminalEvent).length = 1 ∧
      ∃ e, (generateWithAudit gen audit threshold prompt 3).1.getLast? = some e ∧
        isTerminalEvent e = true) := by
  have h := auditLoopGo_spec gen audit threshold prompt 3 3 1 prompt (by omega)
  exact ⟨h.1, h.2.1, fun he => h.2.2 he (by omega)⟩

/-- C8 witness: a concrete error-free run yields exactly one terminal event,
as its final event. -/
theorem C8_witness :
    ((generateWithAudit okGen okAudit 80 "p" 3).1.filter isTerminalEvent).length = 1 ∧
    ∃ e, (generateWithAudit okGen okAudit 80 "p" 3).1.getLast? = some e ∧
      isTerminalEvent e = true :=
  (C8_audit_loop_events_amended okGen okAudit 80 "p").2.2 (by decide)

/-! ### Lemmas about the extraction scanners -/

theorem findSubAux_isSome_iff (n : List Char) :
    ∀ (h : List Char) (i : Nat), (findSubAux n h i).isSome = true ↔ n <:+: h := by
  intro h
  induction h with
  | nil =>
    intro i
    by_cases hn : n = []
    · simp [findSubAux, hn]
    · simp [findSubAux, List.isEmpty_iff, hn, List.infix_nil]
  | cons c cs ih =>
    intro i
    by_cases hp : n.isPrefixOf (c :: cs) = true
    · simp only [findSubAux, hp, if_true, Option.isSome_some, true_iff]
      exact (List.isPrefixOf_iff_prefix.mp hp).isInfix
    · simp only [findSubAux, hp, if_false, Bool.false_eq_true, ih]
      constructor
      · exact fun hi => List.infix_cons_iff.mpr (Or.inr hi)
      · intro hi
        rcases List.infix_cons_iff.mp hi with hpre | hinf
        · exact absurd (List.isPrefixOf_iff_prefix.mpr hpre) hp
        · exact hinf

theorem findSub_isSome_iff (n h : List Char) : (findSub n h).isSome = true ↔ n <:+: h :=
  findSubAux_isSome_iff n h 0

theorem containsSub_iff_occurs (l : List Char) (needle : String) :
    containsSub (String.mk l) needle = true ↔ needle.toList <:+: l :=
  findSub_isSome_iff needle.toList l

theorem trimL_inside (l : List Char) : trimL l <:+: l := by
  unfold trimL
  have h1 : l.dropWhile jsWS <:+ l := List.dropWhile_suffix jsWS
  have h2 : ((l.dropWhile jsWS).reverse.dropWhile jsWS).reverse <+: l.dropWhile jsWS := by
    rw [← List.reverse_suffix]
    simpa using List.dropWhile_suffix (l := (l.dropWhile jsWS).reverse) jsWS
  exact h2.isInfix.trans h1.isInfix

theorem wsNlSplit_suffix (r content : List Char) (h : wsNlSplit r = some content) :
    content <:+ r := by
  unfold wsNlSplit at h
  cases hl : lastIdxOf '\n' (r.takeWhile jsWS) with
  | none => rw [hl] at h; cases h
  | some k =>
    rw [hl] at h
    cases h
    exact List.drop_suffix _ _

theorem fenceCont_inside (r cap : List Char) (h : fenceCont r = some cap) : cap <:+: r := by
  unfold fenceCont at h
  cases hw : wsNlSplit r with
  | none => rw [hw] at h; cases h
  | some content =>
    rw [hw] at h
    dsimp only at h
    cases hf : findSub ticks content with
    | none => rw [hf] at h; cases h
    | some j =>
      rw [hf] at h
      cases h
      exact (List.take_prefix j content).isInfix.trans (wsNlSplit_suffix r content hw).isInfix

theorem fenceAfterTicks_inside (r cap : List Char) (h : fenceAfterTicks r = some cap) :
    cap <:+: r := by
  unfold fenceAfterTicks at h
  split at h
  · cases hc : fenceCont (r.drop 8) with
    | none =>
      rw [hc] at h
      exact fenceCont_inside r cap h
    | some cap' =>
      rw [hc] at h
      cases h
      exact (fenceCont_inside _ _ hc).trans (List.drop_suffix 8 r).isInfix
  · exact fenceCont_inside r cap h

theorem scanFence_inside : ∀ (l cap : List Char), scanFence l = some cap → cap <:+: l := by
  intro l
  induction l with
  | nil => intro cap h; cases h
  | cons c cs ih =>
    intro cap h
    unfold scanFence at h
    split at h
    · rename_i cap' heq
      split at heq
      · cases h
        exact ((fenceAfterTicks_inside _ _ heq).trans
          (List.drop_suffix 2 cs).isInfix).trans (List.infix_cons_iff.mpr (Or.inr (by simp)))
      · cases heq
    · rename_i heq
      exact List.infix_cons_iff.mpr (Or.inr (ih cap h))

theorem scanSpdx_spec : ∀ (l cap : List Char), scanSpdx l = some cap →
    spdxAt cap = true ∧ cap <:+ l := by
  intro l
  induction l with
  | nil => intro cap h; cases h
  | cons c cs ih =>
    intro cap h
    unfold scanSpdx at h
    split at h
    · cases h
      exact ⟨by assumption, List.suffix_refl _⟩
    · obtain ⟨h1, h2⟩ := ih cap h
      exact ⟨h1, h2.trans (List.suffix_cons c cs)⟩

theorem scanPragma_spec : ∀ (l cap : List Char), scanPragma l = some cap →
    pragmaAt cap = true ∧ cap <:+ l := by
  intro l
  induction l with
  | nil => intro cap h; cases h
  | cons c cs ih =>
    intro cap h
    unfold scanPragma at h
    split at h
    · cases h
      exact ⟨by assumption, List.suffix_refl _⟩
    · obtain ⟨h1, h2⟩ := ih cap h
      exact ⟨h1, h2.trans (List.suffix_cons c cs)⟩

theorem spdxAt_inside (cap : List Char) (h : spdxAt cap = true) : spdxLit <:+: cap := by
  unfold spdxAt at h
  have h2 := (Bool.and_eq_true _ _).mp h |>.2
  have hpre : spdxLit <+: ((cap.drop 2).dropWhile jsWS) := List.isPrefixOf_iff_prefix.mp h2
  exact (hpre.isInfix.trans (List.dropWhile_suffix jsWS).isInfix).trans
    (List.drop_suffix 2 cap).isInfix

theorem pragmaAt_inside (cap : List Char) (h : pragmaAt cap = true) : pragmaLit <:+: cap := by
  unfold pragmaAt at h
  have h1 := (Bool.and_eq_true _ _).mp h |>.1
  exact (List.isPrefixOf_iff_prefix.mp h1).isInfix

theorem rawBranch_none (cs : List Char)
    (hp : ¬ "pragma".toList <:+: cs)
    (hsl : "//".toList.isPrefixOf (trimL cs) = false) :
    rawBranch cs = none := by
  unfold rawBranch
  have h2 : pragmaLit.isPrefixOf (trimL cs) = false := by
    by_contra hc
    have : pragmaLit.isPrefixOf (trimL cs) = true := by
      cases h : pragmaLit.isPrefixOf (trimL cs)
      · exact absurd h hc
      · rfl
    exact hp ((List.isPrefixOf_iff_prefix.mp this).isInfix.trans (trimL_inside cs))
  dsimp only
  rw [hsl, h2]
  rfl

theorem pragmaBranch_none (cs : List Char)
    (hp : ¬ "pragma".toList <:+: cs)
    (hsl : "//".toList.isPrefixOf (trimL cs) = false) :
    pragmaBranch cs = none := by
  unfold pragmaBranch
  cases hs : scanPragma cs with
  | some cap =>
    obtain ⟨h1, _⟩ := scanPragma_spec cs cap hs
    exact absurd ((pragmaAt_inside cap h1).trans (scanPragma_spec cs cap hs).2.isInfix) hp
  | none => exact rawBranch_none cs hp hsl

theorem spdxBranch_none (cs : List Char)
    (hp : ¬ "pragma".toList <:+: cs)
    (hx : ¬ "SPDX-License-Identifier".toList <:+: cs)
    (hsl : "//".toList.isPrefixOf (trimL cs) = false) :
    spdxBranch cs = none := by
  unfold spdxBranch
  cases hs : scanSpdx cs with
  | some cap =>
    obtain ⟨h1, h2⟩ := scanSpdx_spec cs cap hs
    exact absurd ((spdxAt_inside cap h1).trans h2.isInfix) hx
  | none => exact pragmaBranch_none cs hp hsl

theorem ticks_no_front (c : Char) (l : List Char) (h : c ≠ tickChar) :
    ticks.isPrefixOf (c :: l) = false := by
  by_contra hc
  have ht : ticks.isPrefixOf (c :: l) = true := by
    cases hb : ticks.isPrefixOf (c :: l)
    · exact absurd hb hc
    · rfl
  have := List.isPrefixOf_iff_prefix.mp ht
  rcases this with ⟨t, hts⟩
  rw [ticks] at hts
  injection hts with h1 _
  exact h h1.symm

theorem scanFence_skip (pre rest : List Char) (h : ∀ c ∈ pre, c ≠ tickChar) :
    scanFence (pre ++ rest) = scanFence rest := by
  induction pre with
  | nil => rfl
  | cons c cs ih =>
    have hc : c ≠ tickChar := h c (by simp)
    have hstep : scanFence (c :: (cs ++ rest)) = scanFence (cs ++ rest) := by
      conv_lhs => unfold scanFence
      rw [ticks_no_front c (cs ++ rest) hc]
      rfl
    show scanFence (c :: (cs ++ rest)) = scanFence rest
    rw [hstep]
    exact ih (fun x hx => h x (by simp [hx]))

theorem findSubAux_boundary (b post : List Char) (hb : ∀ c ∈ b, c ≠ tickChar) :
    ∀ i, findSubAux ticks (b ++ (ticks ++ post)) i = some (i + b.length) := by
  induction b with
  | nil =>
    intro i
    have hpre : ticks.isPrefixOf (tickChar :: (tickChar :: tickChar :: post)) = true :=
      List.isPrefixOf_iff_prefix.mpr (List.prefix_append ticks post)
    show findSubAux ticks (tickChar :: (tickChar :: tickChar :: post)) i = some (i + 0)
    unfold findSubAux
    rw [hpre]
    simp
  | cons c cs ih =>
    intro i
    have hc : c ≠ tickChar := hb c (by simp)
    show findSubAux ticks (c :: (cs ++ (ticks ++ post))) i = _
    unfold findSubAux
    rw [ticks_no_front c _ hc]
    simp only [Bool.false_eq_true, if_false]
    rw [ih (fun x hx => hb x (by simp [hx])) (i + 1)]
    congr 1
    simp only [List.length_cons]
    omega

theorem scanFence_at_fence (c0 : Char) (bt post : List Char)
    (hws : jsWS c0 = false) (hbt : ∀ c ∈ c0 :: bt, c ≠ tickChar) :
    scanFence (ticks ++ (solidityChars ++ ('\n' :: ((c0 :: bt) ++ (ticks ++ post))))) =
      some (c0 :: bt) := by
  have hcont : fenceCont ('\n' :: ((c0 :: bt) ++ (ticks ++ post))) = some (c0 :: bt) := by
    unfold fenceCont wsNlSplit
    have htw : List.takeWhile jsWS ('\n' :: ((c0 :: bt) ++ (ticks ++ post))) = ['\n'] := by
      show List.takeWhile jsWS ('\n' :: (c0 :: (bt ++ (ticks ++ post)))) = ['\n']
      rw [List.takeWhile_cons_of_pos (by rfl), List.takeWhile_cons_of_neg (by simp [hws])]
    rw [htw]
    show (match findSub ticks (List.drop 1 ('\n' :: ((c0 :: bt) ++ (ticks ++ post)))) with
      | some j => some ((List.drop 1 ('\n' :: ((c0 :: bt) ++ (ticks ++ post)))).take j)
      | none => none) = some (c0 :: bt)
    have hdrop : List.drop 1 ('\n' :: ((c0 :: bt) ++ (ticks ++ post))) =
        (c0 :: bt) ++ (ticks ++ post) := rfl
    rw [hdrop, findSub, findSubAux_boundary (c0 :: bt) post hbt 0]
    simp only [Nat.zero_add]
    rw [List.take_left]
  have hsol : solidityChars.isPrefixOf
      (solidityChars ++ ('\n' :: ((c0 :: bt) ++ (ticks ++ post)))) = true :=
    List.isPrefixOf_iff_prefix.mpr (List.prefix_append _ _)
  have hticks : ticks.isPrefixOf
      (ticks ++ (solidityChars ++ ('\n' :: ((c0 :: bt) ++ (ticks ++ post))))) = true :=
    List.isPrefixOf_iff_prefix.mpr (List.prefix_append _ _)
  have hdrop8 : (solidityChars ++ ('\n' :: ((c0 :: bt) ++ (ticks ++ post)))).drop 8 =
      '\n' :: ((c0 :: bt) ++ (ticks ++ post)) := List.drop_left solidityChars _
  have hfat : fenceAfterTicks (solidityChars ++ ('\n' :: ((c0 :: bt) ++ (ticks ++ post)))) =
      some (c0 :: bt) := by
    unfold fenceAfterTicks
    rw [hsol]
    simp only [if_true]
    rw [hdrop8, hcont]
  show scanFence (tickChar :: (tickChar :: tickChar ::
      (solidityChars ++ ('\n' :: ((c0 :: bt) ++ (ticks ++ post)))))) = some (c0 :: bt)
  unfold scanFence
  rw [show (tickChar :: tickChar ::
      (solidityChars ++ ('\n' :: ((c0 :: bt) ++ (ticks ++ post))))).drop 2 =
      solidityChars ++ ('\n' :: ((c0 :: bt) ++ (ticks ++ post))) from rfl]
  rw [show ticks.isPrefixOf (tickChar :: (tickChar :: tickChar ::
      (solidityChars ++ ('\n' :: ((c0 :: bt) ++ (ticks ++ post)))))) = true from hticks]
  simp only [if_true]
  rw [hfat]

/-- C9 amended. Code-extraction heuristic: (a) a response wrapping source in a
`solidity`-tagged fenced block whose content starts with a non-whitespace
character, contains no backtick and carries a recognizable contract marker is
extracted to exactly the fenced content trimmed of surrounding whitespace (not
trimmed to its last closing brace — see the counterexample); (b) a response
containing none of the recognizable markers (`pragma`, `contract `, the SPDX
header, or a leading `//` after trimming) extracts to `none`, never a partial
guess. -/
theorem C9_extraction_amended :
    (∀ (pre : List Char) (c0 : Char) (bt post : List Char),
      (∀ c ∈ pre, c ≠ tickChar) →
      jsWS c0 = false →
      (∀ c ∈ c0 :: bt, c ≠ tickChar) →
      (containsSub (String.mk (trimL (c0 :: bt))) "pragma solidity" = true ∨
        containsSub (String.mk (trimL (c0 :: bt))) "contract " = true) →
      extractSolidityCode (String.mk (pre ++ (ticks ++ (solidityChars ++
          ('\n' :: ((c0 :: bt) ++ (ticks ++ post))))))) =
        some (String.mk (trimL (c0 :: bt)))) ∧
    (∀ response : String,
      containsSub response "pragma" = false →
      containsSub response "contract " = false →
      containsSub response "SPDX-License-Identifier" = false →
      "//".toList.isPrefixOf (trimL response.toList) = false →
      extractSolidityCode response = none) := by
  constructor
  · intro pre c0 bt post hpre hws hbt hmark
    have hne : String.mk (pre ++ (ticks ++ (solidityChars ++
        ('\n' :: ((c0 :: bt) ++ (ticks ++ post)))))) ≠ "" := by
      intro h
      have hdata : pre ++ (ticks ++ (solidityChars ++
          ('\n' :: ((c0 :: bt) ++ (ticks ++ post))))) = [] := congrArg String.data h
      rcases List.append_eq_nil.mp hdata with ⟨_, h2⟩
      rcases List.append_eq_nil.mp h2 with ⟨h3, _⟩
      simp [ticks] at h3
    unfold extractSolidityCode
    rw [if_neg hne]
    dsimp only
    rw [show (String.mk (pre ++ (ticks ++ (solidityChars ++
        ('\n' :: ((c0 :: bt) ++ (ticks ++ post))))))).toList =
        pre ++ (ticks ++ (solidityChars ++
        ('\n' :: ((c0 :: bt) ++ (ticks ++ post))))) from rfl]
    rw [scanFence_skip pre _ hpre, scanFence_at_fence c0 bt post hws hbt]
    dsimp only
    rcases hmark with hm | hm <;> rw [hm] <;> simp
  · intro response h1 h2 h3 h4
    by_cases hre : response = ""
    · rw [hre]
      rfl
    · have hp : ¬ "pragma".toList <:+: response.toList := by
        intro hin
        have := (findSub_isSome_iff "pragma".toList response.toList).mpr hin
        rw [containsSub] at h1
        rw [h1] at this
        cases this
      have hc : ¬ "contract ".toList <:+: response.toList := by
        intro hin
        have := (findSub_isSome_iff "contract ".toList response.toList).mpr hin
        rw [containsSub] at h2
        rw [h2] at this
        cases this
      have hx : ¬ "SPDX-License-Identifier".toList <:+: response.toList := by
        intro hin
        have := (findSub_isSome_iff "SPDX-License-Identifier".toList response.toList).mpr hin
        rw [containsSub] at h3
        rw [h3] at this
        cases this
      unfold extractSolidityCode
      rw [if_neg hre]
      dsimp only
      cases hs : scanFence response.toList with
      | none => exact spdxBranch_none response.toList hp hx h4
      | some cap =>
        have hcapinf := scanFence_inside response.toList cap hs
        have hm1 : containsSub (String.mk (trimL cap)) "pragma solidity" = false := by
          rw [Bool.eq_false_iff]
          intro hm
          have hin := (containsSub_iff_occurs (trimL cap) "pragma solidity").mp hm
          have hpp : "pragma".toList <+: "pragma solidity".toList := by decide
          exact hp (((hpp.isInfix.trans hin).trans (trimL_inside cap)).trans hcapinf)
        have hm2 : containsSub (String.mk (trimL cap)) "contract " = false := by
          rw [Bool.eq_false_iff]
          intro hm
          have hin := (containsSub_iff_occurs (trimL cap) "contract ").mp hm
          exact hc ((hin.trans (trimL_inside cap)).trans hcapinf)
        dsimp only
        rw [hm1, hm2]
        exact spdxBranch_none response.toList hp hx h4

/-- C9 witness: a concrete fenced response extracts to exactly its trimmed
fenced content, and a concrete marker-free response extracts to `none`. -/
theorem C9_witness :
    extractSolidityCode (String.mk ("Here:\n".toList ++ (ticks ++ (solidityChars ++
        ('\n' :: (("contract A \x7b\x7d".toList) ++ (ticks ++ "\nEnjoy".toList))))))) =
      some (String.mk (trimL "contract A \x7b\x7d".toList)) ∧
    extractSolidityCode "hello \x7bworld\x7d" = none := by
  constructor
  · exact C9_extraction_amended.1 "Here:\n".toList 'c' "ontract A \x7b\x7d".toList
      "\nEnjoy".toList (by decide) (by decide) (by decide) (Or.inr (by decide))
  · exact C9_extraction_amended.2 "hello \x7bworld\x7d" (by decide) (by decide) (by decide)
      (by decide)

end Chimera
